import Mathlib

/-!
Verification development for the semantic-search-cli repository.

The definitions below are a shallow embedding of the Rust sources:
* `src/services/chunker.rs` (TextChunker),
* `src/utils/text.rs` (has_meaningful_content),
* `src/error.rs` (DaemonError retry classification),
* `src/server/protocol.rs` and `src/server/mod.rs` (wire framing and the
  per-connection loop),
* `src/server/embedding.rs` (L2 normalization),
* `src/services/vector_store/qdrant.rs` and `pgvector.rs` (filter
  construction, search post-processing and tag aggregation).

Strings are modelled as `List Char` (Rust iterates `content.chars()`);
`content.len()` (a UTF-8 byte count in Rust) is modelled by `utf8_len`.
Machine integers are modelled as `Nat` with explicit truncation where the
source casts.  `f32` values are idealized as exact numbers (`ℚ` where the
code only moves them around, `ℝ` where it does arithmetic).
-/

set_option maxRecDepth 100000

namespace SemanticSearch

/-- UTF-8 byte length of a character sequence: Rust `str::len()`. -/
def utf8_len (content : List Char) : Nat :=
  (content.map Char.utf8Size).sum

/-- Rust `str::lines().count()`: number of lines, where a trailing newline
does not start a final empty line and the empty string has zero lines. -/
def lines_count (content : List Char) : Nat :=
  if content.isEmpty then 0
  else content.count '\n' + (if content.getLast? = some '\n' then 0 else 1)

/-! ### `src/utils/text.rs` -/

/-- Minimum non-whitespace characters for meaningful content
(`src/utils/text.rs:4`). -/
def MIN_CONTENT_LENGTH : Nat := 50

/-- `has_meaningful_content` (`src/utils/text.rs:7-9`): at least
`MIN_CONTENT_LENGTH` non-whitespace characters. -/
def has_meaningful_content (content : List Char) : Bool :=
  decide (MIN_CONTENT_LENGTH ≤ (content.filter (fun c => !c.isWhitespace)).length)

/-! ### `src/services/chunker.rs` -/

/-- The two fields of `IndexingConfig` that the chunker reads
(`src/models/config.rs:647-659`); both are `u32` in the source. -/
structure IndexingConfig where
  chunk_size : Nat
  chunk_overlap : Nat
deriving DecidableEq, Repr

/-- `IndexingConfig::default()` values (`src/models/config.rs:684-690`). -/
def IndexingConfig.default : IndexingConfig := ⟨6000, 500⟩

/-- `TextChunker` (`src/services/chunker.rs:8-13`): sizes in characters. -/
structure TextChunker where
  chunk_size : Nat
  overlap : Nat
deriving DecidableEq, Repr

/-- `TextChunker::new` (`src/services/chunker.rs:17-25`):
1 token ≈ 4 characters. -/
def TextChunker.new (config : IndexingConfig) : TextChunker :=
  { chunk_size := config.chunk_size * 4, overlap := config.chunk_overlap * 4 }

/-- `TextChunker::with_defaults` (`src/services/chunker.rs:28-30`). -/
def TextChunker.with_defaults : TextChunker :=
  TextChunker.new IndexingConfig.default

/-- The document fields the chunker reads; the remaining `Document` fields
(source, tags, checksum, metadata) are copied through unchanged by
`DocumentChunk::from_document` and are irrelevant to the chunking claims. -/
structure Document where
  content : List Char
deriving DecidableEq, Repr

/-- The positional fields of `DocumentChunk` filled in by
`DocumentChunk::from_document` as called from the chunker. -/
structure DocumentChunk where
  content : List Char
  chunk_index : Nat
  total_chunks : Nat
  start_offset : Nat
  end_offset : Nat
  line_start : Option Nat
  line_end : Option Nat
deriving DecidableEq, Repr

/-- One `(String, u64, u64, u32, u32)` tuple produced by
`split_with_overlap` (`src/services/chunker.rs:83`). -/
structure RawChunk where
  content : List Char
  start_offset : Nat
  end_offset : Nat
  line_start : Nat
  line_end : Nat
deriving DecidableEq, Repr

/-- The char→line map entry: `char_to_line[i]` is 1 plus the number of
newlines strictly before index `i` (`src/services/chunker.rs:99-108`). -/
def line_of (content : List Char) (i : Nat) : Nat :=
  1 + (content.take i).count '\n'

/-- Accumulator of the break-point scan loop
(`src/services/chunker.rs:161-164`). -/
structure BreakState where
  best_break : Option Nat
  last_newline : Option Nat
  last_sentence : Option Nat
  last_space : Option Nat
deriving DecidableEq, Repr

/-- The `for (i, c) in search_range.iter().enumerate()` loop of
`find_break_point` (`src/services/chunker.rs:166-187`).  `pos` is the
absolute index of `c`; `prev` is the previous character of the search
range (`None` at the first element, matching the `i > 0` guard). -/
def scan_breaks : BreakState → Nat → Option Char → List Char → BreakState
  | st, _, _, [] => st
  | st, pos, prev, c :: rest =>
    let st1 :=
      if c = '\n' then
        let stb := if prev = some '\n' then { st with best_break := some (pos + 1) } else st
        { stb with last_newline := some (pos + 1) }
      else if c = '.' ∨ c = '!' ∨ c = '?' then
        if (rest.head?.map Char.isWhitespace).getD false then
          { st with last_sentence := some (pos + 1) }
        else st
      else if c = ' ' ∨ c = '\t' then { st with last_space := some (pos + 1) }
      else st
    scan_breaks st1 (pos + 1) (some c) rest

/-- The final priority choice of `find_break_point`
(`src/services/chunker.rs:189-193`): paragraph break, else newline, else
sentence end, else space, else the window edge. -/
def BreakState.choose (st : BreakState) (fallback : Nat) : Nat :=
  ((((st.best_break).or st.last_newline).or st.last_sentence).or st.last_space).getD
    fallback

/-- `TextChunker::find_break_point` (`src/services/chunker.rs:145-194`).
The unused `_start` parameter of the source is omitted. -/
def TextChunker.find_break_point (self : TextChunker) (chars : List Char)
    (target_end total : Nat) : Nat :=
  if total ≤ target_end then total
  else
    let search_start := target_end - self.chunk_size / 5
    let search_range := (chars.drop search_start).take (target_end - search_start)
    (scan_breaks ⟨none, none, none, none⟩ search_start none search_range).choose
      target_end

/-- The window step (`src/services/chunker.rs:92-96`). -/
def TextChunker.step (self : TextChunker) : Nat :=
  if self.overlap < self.chunk_size then self.chunk_size - self.overlap
  else self.chunk_size

/-- One iteration body of the `while start < total_chars` loop
(`src/services/chunker.rs:110-129`): the pushed tuple. -/
def TextChunker.make_raw_chunk (self : TextChunker) (content : List Char)
    (start : Nat) : RawChunk :=
  let total := content.length
  let window_end := min (start + self.chunk_size) total
  let adjusted_end := self.find_break_point content window_end total
  let ls := if start < total then line_of content start else 1
  { content := (content.drop start).take (adjusted_end - start)
    start_offset := start
    end_offset := adjusted_end
    line_start := ls
    line_end := if adjusted_end - 1 < total then line_of content (adjusted_end - 1) else ls }

/-- The two `break` checks at the bottom of the loop
(`src/services/chunker.rs:131-138`): `none` means the loop exits after the
current push, `some s` means the next iteration starts at `s`. -/
def TextChunker.loop_next (self : TextChunker) (content : List Char)
    (start : Nat) : Option Nat :=
  let total := content.length
  if total ≤ (self.make_raw_chunk content start).end_offset then none
  else if total ≤ start + self.step then none
  else some (start + self.step)

/-- The `while start < total_chars` loop of `split_with_overlap`, written
with explicit fuel.  Each continuing iteration advances `start` by
`self.step`, so when `self.step ≥ 1` a fuel of `content.length` is never
exhausted (starts are distinct members of `[0, total)`); when
`self.step = 0` the source loop never terminates, which the fuel model
expresses through `TextChunker.loop_next` (see the C10 theorem). -/
def TextChunker.split_go (self : TextChunker) (content : List Char) :
    Nat → Nat → List RawChunk
  | 0, _ => []
  | fuel + 1, start =>
    if start < content.length then
      self.make_raw_chunk content start ::
        (match self.loop_next content start with
         | none => []
         | some s => self.split_go content fuel s)
    else []

/-- `TextChunker::split_with_overlap` (`src/services/chunker.rs:83-142`). -/
def TextChunker.split_with_overlap (self : TextChunker)
    (content : List Char) : List RawChunk :=
  if content.length = 0 then []
  else self.split_go content content.length 0

/-- `TextChunker::chunk` (`src/services/chunker.rs:33-80`). -/
def TextChunker.chunk (self : TextChunker) (document : Document) :
    List DocumentChunk :=
  let content := document.content
  if content.isEmpty then []
  else if utf8_len content ≤ self.chunk_size then
    [{ content := content
       chunk_index := 0
       total_chunks := 1
       start_offset := 0
       end_offset := utf8_len content
       line_start := some 1
       line_end := some (lines_count content) }]
  else
    let kept := (self.split_with_overlap content).filter
      (fun rc => has_meaningful_content rc.content)
    let total_chunks := kept.length
    kept.enum.map (fun p =>
      { content := p.2.content
        chunk_index := p.1
        total_chunks := total_chunks
        start_offset := p.2.start_offset
        end_offset := p.2.end_offset
        line_start := some p.2.line_start
        line_end := some p.2.line_end })

example :
    TextChunker.with_defaults.chunk ⟨"Hello, world!".data⟩ =
      [{ content := "Hello, world!".data, chunk_index := 0, total_chunks := 1,
         start_offset := 0, end_offset := 13, line_start := some 1,
         line_end := some 1 }] := by decide

example : TextChunker.with_defaults.chunk ⟨[]⟩ = [] := by decide

/-! ### C7: single-chunk path -/

/-- C7: for every document whose content is non-empty and whose byte length
(`content.len()`) is at most the configured chunk size, `chunk()` returns
exactly one chunk whose content is the whole document, with
`chunk_index = 0` and `total_chunks = 1` (`src/services/chunker.rs:41-52`). -/
theorem C7_small_document_single_chunk (ck : TextChunker) (doc : Document)
    (hne : doc.content ≠ []) (hle : utf8_len doc.content ≤ ck.chunk_size) :
    ck.chunk doc =
      [{ content := doc.content
         chunk_index := 0
         total_chunks := 1
         start_offset := 0
         end_offset := utf8_len doc.content
         line_start := some 1
         line_end := some (lines_count doc.content) }] := by
  unfold TextChunker.chunk
  simp [List.isEmpty_iff, hne, hle]

/-- C7 witness: the hypotheses hold and the conclusion follows at the
concrete document `"hi"` with the default chunker. -/
theorem C7_small_document_single_chunk_witness :
    ("hi".data ≠ [] ∧ utf8_len "hi".data ≤ TextChunker.with_defaults.chunk_size) ∧
    TextChunker.with_defaults.chunk ⟨"hi".data⟩ =
      [{ content := "hi".data
         chunk_index := 0
         total_chunks := 1
         start_offset := 0
         end_offset := utf8_len "hi".data
         line_start := some 1
         line_end := some (lines_count "hi".data) }] :=
  ⟨⟨by decide, by decide⟩,
    C7_small_document_single_chunk TextChunker.with_defaults ⟨"hi".data⟩
      (by decide) (by decide)⟩

/-! ### C3: meaningfulness filter -/

/-- C3 counterexample: the single-chunk path (`src/services/chunker.rs:41-52`)
bypasses the meaningfulness filter, so the one-space document emits a chunk
whose non-whitespace character count (0) is below the threshold (50). -/
theorem C3_counterexample :
    (TextChunker.with_defaults.chunk ⟨[' ']⟩).length = 1 ∧
    (TextChunker.with_defaults.chunk ⟨[' ']⟩).map
        (fun c => has_meaningful_content c.content) = [false] := by
  constructor
  · decide
  · decide

/-- The chunks kept by the meaningfulness filter in the multi-chunk path. -/
def TextChunker.kept (ck : TextChunker) (content : List Char) : List RawChunk :=
  (ck.split_with_overlap content).filter (fun rc => has_meaningful_content rc.content)

/-- The re-indexing map applied to the kept chunks
(`src/services/chunker.rs:62-79`). -/
def TextChunker.reindex (ck : TextChunker) (content : List Char)
    (p : Nat × RawChunk) : DocumentChunk :=
  { content := p.2.content
    chunk_index := p.1
    total_chunks := (ck.kept content).length
    start_offset := p.2.start_offset
    end_offset := p.2.end_offset
    line_start := some p.2.line_start
    line_end := some p.2.line_end }

/-- In the multi-chunk path, `chunk()` is the kept list enumerated and
re-indexed. -/
theorem TextChunker.chunk_of_large (ck : TextChunker) (doc : Document)
    (hne : doc.content ≠ []) (hgt : ck.chunk_size < utf8_len doc.content) :
    ck.chunk doc = ((ck.kept doc.content).enum).map (ck.reindex doc.content) := by
  unfold TextChunker.chunk
  have h1 : doc.content.isEmpty = false := by
    simpa [List.isEmpty_iff] using hne
  have h2 : ¬ utf8_len doc.content ≤ ck.chunk_size := by omega
  simp only [h1, Bool.false_eq_true, if_false, h2, if_true]
  rfl

/-- C3 amended: only in the multi-chunk path (content byte length above the
chunk size) is every emitted chunk guaranteed meaningful; in every case
`total_chunks` equals the number of emitted chunks and `chunk_index` is
contiguous from 0 (`src/services/chunker.rs:33-80`). -/
theorem C3_meaningfulness_filter (ck : TextChunker) (doc : Document) :
    (ck.chunk_size < utf8_len doc.content →
      ∀ c ∈ ck.chunk doc, has_meaningful_content c.content = true) ∧
    (∀ c ∈ ck.chunk doc, c.total_chunks = (ck.chunk doc).length) ∧
    (∀ i, (h : i < (ck.chunk doc).length) →
      ((ck.chunk doc).get ⟨i, h⟩).chunk_index = i) := by
  by_cases hempty : doc.content = []
  · have : ck.chunk doc = [] := by
      unfold TextChunker.chunk
      simp [hempty]
    simp [this]
  · by_cases hle : utf8_len doc.content ≤ ck.chunk_size
    · have heq := C7_small_document_single_chunk ck doc hempty hle
      rw [heq]
      refine ⟨fun hgt => absurd hle (by omega), ?_, ?_⟩
      · intro c hc
        simp only [List.mem_singleton] at hc
        simp [hc]
      · intro i h
        simp only [List.length_singleton] at h
        interval_cases i
        simp
    · have hgt : ck.chunk_size < utf8_len doc.content := by omega
      have heq := ck.chunk_of_large doc hempty hgt
      rw [heq]
      have hlen : (((ck.kept doc.content).enum).map (ck.reindex doc.content)).length =
          (ck.kept doc.content).length := by simp
      refine ⟨?_, ?_, ?_⟩
      · intro _ c hc
        obtain ⟨i, hi, rfl⟩ := List.mem_iff_getElem.mp hc
        have hi2 : i < (ck.kept doc.content).length := by simpa [hlen] using hi
        have : (((ck.kept doc.content).enum).map (ck.reindex doc.content))[i] =
            ck.reindex doc.content (i, (ck.kept doc.content)[i]) := by
          simp
        rw [this]
        have hmem : (ck.kept doc.content)[i] ∈ ck.kept doc.content :=
          List.getElem_mem hi2
        have := (List.mem_filter.mp hmem).2
        simpa [TextChunker.reindex] using this
      · intro c hc
        obtain ⟨i, hi, rfl⟩ := List.mem_iff_getElem.mp hc
        have hi2 : i < (ck.kept doc.content).length := by simpa [hlen] using hi
        have : (((ck.kept doc.content).enum).map (ck.reindex doc.content))[i] =
            ck.reindex doc.content (i, (ck.kept doc.content)[i]) := by
          simp
        rw [this, hlen]
        rfl
      · intro i h
        have hi2 : i < (ck.kept doc.content).length := by simpa [hlen] using h
        simp [TextChunker.reindex]

/-- C3 witness for the amended theorem: evaluated at a 100-character
document with a 60-character chunk window, where the 40-character tail
chunk is dropped by the filter. -/
theorem C3_meaningfulness_filter_witness :
    ((TextChunker.new ⟨15, 0⟩).chunk ⟨List.replicate 100 'a'⟩).length = 1 ∧
    (∀ c ∈ (TextChunker.new ⟨15, 0⟩).chunk ⟨List.replicate 100 'a'⟩,
      c.total_chunks = ((TextChunker.new ⟨15, 0⟩).chunk ⟨List.replicate 100 'a'⟩).length) :=
  ⟨by decide, (C3_meaningfulness_filter (TextChunker.new ⟨15, 0⟩) ⟨List.replicate 100 'a'⟩).2.1⟩

/-! ### C10: loop advancement -/

/-- C10: when the character chunk size is positive the window step is at
least 1 and every continuing loop iteration strictly advances the window
start (so the `while start < total_chars` loop of `split_with_overlap`
terminates); when the character chunk size is 0 (configured token chunk
size 0) and the content is non-empty, the step is 0 and the loop body maps
every reachable start to itself, so the loop never advances
(`src/services/chunker.rs:92-139`). -/
theorem C10_loop_advancement (ck : TextChunker) (content : List Char) :
    (1 ≤ ck.chunk_size →
      1 ≤ ck.step ∧
      ∀ start s, ck.loop_next content start = some s → start < s) ∧
    (ck.chunk_size = 0 → content ≠ [] →
      ck.step = 0 ∧
      ∀ start, start < content.length → ck.loop_next content start = some start) := by
  constructor
  · intro hcs
    have hstep : 1 ≤ ck.step := by
      unfold TextChunker.step
      split <;> omega
    refine ⟨hstep, fun start s hnext => ?_⟩
    unfold TextChunker.loop_next at hnext
    simp only at hnext
    split at hnext
    · exact absurd hnext (by simp)
    · split at hnext
      · exact absurd hnext (by simp)
      · cases hnext
        omega
  · intro hcs hne
    have hstep : ck.step = 0 := by
      unfold TextChunker.step
      split <;> omega
    refine ⟨hstep, fun start hstart => ?_⟩
    have hend : (ck.make_raw_chunk content start).end_offset = start := by
      unfold TextChunker.make_raw_chunk TextChunker.find_break_point
      simp only [hcs, Nat.add_zero]
      have hmin : min start content.length = start := by omega
      rw [hmin]
      have : ¬ content.length ≤ start := by omega
      rw [if_neg this]
      simp [scan_breaks, BreakState.choose]
    unfold TextChunker.loop_next
    simp only [hend, hstep, Nat.add_zero]
    have h1 : ¬ content.length ≤ start := by omega
    rw [if_neg h1, if_neg h1]

/-- C10 witness: both halves evaluated at concrete chunkers and the
five-character document `aaaaa`. -/
theorem C10_loop_advancement_witness :
    (1 ≤ (TextChunker.new ⟨1, 0⟩).chunk_size ∧
      1 ≤ (TextChunker.new ⟨1, 0⟩).step ∧
      ∀ start s,
        (TextChunker.new ⟨1, 0⟩).loop_next (List.replicate 5 'a') start = some s →
        start < s) ∧
    ((⟨0, 0⟩ : TextChunker).chunk_size = 0 ∧ (⟨0, 0⟩ : TextChunker).step = 0 ∧
      ∀ start, start < (List.replicate 5 'a').length →
        (⟨0, 0⟩ : TextChunker).loop_next (List.replicate 5 'a') start = some start) := by
  refine ⟨⟨by decide, ?_⟩, ⟨by decide, ?_⟩⟩
  · exact (C10_loop_advancement (TextChunker.new ⟨1, 0⟩) (List.replicate 5 'a')).1 (by decide)
  · have h := (C10_loop_advancement (⟨0, 0⟩ : TextChunker) (List.replicate 5 'a')).2
      (by decide) (by decide)
    exact h

/-! ### C2: chunk range structure

Bounds on `find_break_point` and an invariant of the sliding-window loop. -/

/-- The candidate stored in an accumulator field lies in `(lo, hi]`. -/
def opt_in_range (lo hi : Nat) : Option Nat → Prop
  | none => True
  | some v => lo < v ∧ v ≤ hi

/-- All four accumulator fields lie in `(lo, hi]`. -/
def state_in_range (lo hi : Nat) (st : BreakState) : Prop :=
  opt_in_range lo hi st.best_break ∧ opt_in_range lo hi st.last_newline ∧
  opt_in_range lo hi st.last_sentence ∧ opt_in_range lo hi st.last_space

theorem scan_breaks_range :
    ∀ (l : List Char) (st : BreakState) (pos : Nat) (prev : Option Char)
      (lo hi : Nat), lo ≤ pos → pos + l.length ≤ hi →
      state_in_range lo hi st →
      state_in_range lo hi (scan_breaks st pos prev l)
  | [], st, pos, prev, lo, hi, _, _, hst => by
    simpa [scan_breaks] using hst
  | c :: rest, st, pos, prev, lo, hi, hlo, hhi, hst => by
    have hlen : pos + rest.length + 1 ≤ hi := by
      simpa [Nat.add_comm, Nat.add_left_comm] using hhi
    have hnew : opt_in_range lo hi (some (pos + 1)) := ⟨by omega, by omega⟩
    obtain ⟨h1, h2, h3, h4⟩ := hst
    rw [scan_breaks]
    apply scan_breaks_range rest _ (pos + 1) (some c) lo hi (by omega) (by omega)
    split
    · split <;> exact ⟨by assumption, hnew, h3, h4⟩
    · split
      · split
        · exact ⟨h1, h2, hnew, h4⟩
        · exact ⟨h1, h2, h3, h4⟩
      · split
        · exact ⟨h1, h2, h3, hnew⟩
        · exact ⟨h1, h2, h3, h4⟩

theorem opt_in_range_or {lo hi : Nat} {a b : Option Nat}
    (ha : opt_in_range lo hi a) (hb : opt_in_range lo hi b) :
    opt_in_range lo hi (a.or b) := by
  cases a <;> simpa [Option.or] using (by first | exact hb | exact ha)

/-- The priority choice is either the fallback or one of the in-range
candidates. -/
theorem BreakState.choose_cases {lo hi : Nat} {st : BreakState}
    (h : state_in_range lo hi st) (fallback : Nat) :
    st.choose fallback = fallback ∨
    (lo < st.choose fallback ∧ st.choose fallback ≤ hi) := by
  obtain ⟨h1, h2, h3, h4⟩ := h
  have hcomb := opt_in_range_or (opt_in_range_or (opt_in_range_or h1 h2) h3) h4
  unfold BreakState.choose
  cases hc : (((st.best_break.or st.last_newline).or st.last_sentence).or st.last_space) with
  | none => left; rfl
  | some v =>
    right
    rw [hc] at hcomb
    simpa [Option.getD] using hcomb

/-- Bounds on the adjusted end: when the window end is strictly inside the
content, the chosen break point lies between
`target_end − chunk_size/5` and `target_end`. -/
theorem find_break_point_bounds (ck : TextChunker) (chars : List Char)
    (target_end total : Nat) (h : target_end < total) :
    target_end - ck.chunk_size / 5 ≤ ck.find_break_point chars target_end total ∧
    ck.find_break_point chars target_end total ≤ target_end := by
  unfold TextChunker.find_break_point
  rw [if_neg (by omega)]
  simp only
  set ss := target_end - ck.chunk_size / 5 with hss
  set sr := (chars.drop ss).take (target_end - ss) with hsr
  have hsrlen : ss + sr.length ≤ target_end := by
    have : sr.length ≤ target_end - ss := by
      simp [hsr]
    omega
  have hstate : state_in_range ss target_end
      (scan_breaks ⟨none, none, none, none⟩ ss none sr) := by
    apply scan_breaks_range sr _ ss none ss target_end le_rfl hsrlen
    exact ⟨trivial, trivial, trivial, trivial⟩
  rcases BreakState.choose_cases hstate target_end with hc | hc
  · rw [hc]
    omega
  · omega

/-- The break point never exceeds the content length: it is `total` when
the window reaches the end, and at most `target_end` otherwise. -/
theorem find_break_point_le (ck : TextChunker) (chars : List Char)
    (target_end total : Nat) :
    ck.find_break_point chars target_end total ≤ max target_end total := by
  by_cases h : target_end < total
  · have := (find_break_point_bounds ck chars target_end total h).2
    omega
  · unfold TextChunker.find_break_point
    rw [if_pos (by omega)]
    omega

theorem getLast?_cons_of_ne_nil {α : Type} (a : α) {l : List α} (h : l ≠ []) :
    (a :: l).getLast? = l.getLast? := by
  cases l with
  | nil => exact absurd rfl h
  | cons b m => simp

theorem TextChunker.step_pos (ck : TextChunker) (hcs : 1 ≤ ck.chunk_size) :
    1 ≤ ck.step := by
  unfold TextChunker.step
  split <;> omega

theorem TextChunker.step_le (ck : TextChunker) : ck.step ≤ ck.chunk_size := by
  unfold TextChunker.step
  split <;> omega

theorem TextChunker.chunk_size_le_step_add_overlap (ck : TextChunker) :
    ck.chunk_size ≤ ck.step + ck.overlap := by
  unfold TextChunker.step
  split <;> omega

/-- Facts about one pushed window (`src/services/chunker.rs:110-129`):
the range starts at `start`, is non-empty, stays inside the window and the
content, ends exactly at the content length when the window reaches it, and
otherwise retreats by at most `chunk_size/5` from the window edge. -/
theorem make_raw_chunk_spec (ck : TextChunker) (content : List Char)
    (start : Nat) (hcs : 1 ≤ ck.chunk_size) (hstart : start < content.length) :
    (ck.make_raw_chunk content start).start_offset = start ∧
    start < (ck.make_raw_chunk content start).end_offset ∧
    (ck.make_raw_chunk content start).end_offset ≤ content.length ∧
    (ck.make_raw_chunk content start).end_offset ≤ start + ck.chunk_size ∧
    (content.length ≤ start + ck.chunk_size →
      (ck.make_raw_chunk content start).end_offset = content.length) ∧
    (start + ck.chunk_size < content.length →
      start + ck.chunk_size - ck.chunk_size / 5 ≤
        (ck.make_raw_chunk content start).end_offset) := by
  unfold TextChunker.make_raw_chunk
  simp only
  by_cases hwin : content.length ≤ start + ck.chunk_size
  · have hmin : min (start + ck.chunk_size) content.length = content.length := by omega
    rw [hmin]
    have hfb : ck.find_break_point content content.length content.length =
        content.length := by
      unfold TextChunker.find_break_point
      rw [if_pos le_rfl]
    rw [hfb]
    exact ⟨by trivial, hstart, le_rfl, by omega, fun _ => by trivial,
      fun h => absurd h (by omega)⟩
  · have hmin : min (start + ck.chunk_size) content.length = start + ck.chunk_size := by
      omega
    rw [hmin]
    have hb := find_break_point_bounds ck content (start + ck.chunk_size)
      content.length (by omega)
    refine ⟨by trivial, by omega, by omega, by omega, fun h => absurd h (by omega),
      fun _ => by omega⟩

/-- Adjacency relation between consecutive raw chunks: the next window
start advances by exactly the step, the overlap of consecutive ranges is at
most the configured overlap, and any uncovered gap left by break-point
adjustment is at most `chunk_size/5`. -/
def raw_chain (ck : TextChunker) (p q : RawChunk) : Prop :=
  q.start_offset = p.start_offset + ck.step ∧
  p.end_offset ≤ q.start_offset + ck.overlap ∧
  q.start_offset ≤ p.end_offset + ck.chunk_size / 5

instance (ck : TextChunker) (p q : RawChunk) : Decidable (raw_chain ck p q) := by
  unfold raw_chain
  infer_instance

/-- Invariant of the sliding-window loop: starting from `start` with enough
fuel, the produced list begins at `start`, ends at the content length,
satisfies the adjacency relation throughout, and every range is non-empty,
window-bounded and in-bounds. -/
theorem split_go_spec (ck : TextChunker) (content : List Char)
    (hcs : 1 ≤ ck.chunk_size) :
    ∀ fuel start, start < content.length → content.length - start ≤ fuel →
    ((ck.split_go content fuel start).head?.map (fun p => p.start_offset) =
      some start) ∧
    (((ck.split_go content fuel start).getLast?).map (fun p => p.end_offset) =
      some content.length) ∧
    List.Chain' (raw_chain ck) (ck.split_go content fuel start) ∧
    (∀ p ∈ ck.split_go content fuel start,
      start ≤ p.start_offset ∧ p.start_offset < p.end_offset ∧
      p.end_offset ≤ p.start_offset + ck.chunk_size ∧
      p.end_offset ≤ content.length) := by
  intro fuel
  induction fuel with
  | zero => intro start hstart hfuel; omega
  | succ fuel ih =>
    intro start hstart hfuel
    obtain ⟨hs0, hs1, hs2, hs3, hs4, hs5⟩ :=
      make_raw_chunk_spec ck content start hcs hstart
    rw [TextChunker.split_go, if_pos hstart]
    cases hnext : ck.loop_next content start with
    | none =>
      have hend : (ck.make_raw_chunk content start).end_offset = content.length := by
        unfold TextChunker.loop_next at hnext
        simp only at hnext
        split at hnext
        · omega
        · split at hnext
          · rename_i hbig hsmall
            have hlt : start + ck.chunk_size < content.length := by
              by_contra hh
              exact hbig (by omega)
            have := ck.step_le
            omega
          · exact absurd hnext (by simp)
      refine ⟨by simp [hs0], by simp [hend], by simp, ?_⟩
      intro p hp
      simp only [List.mem_singleton] at hp
      subst hp
      omega
    | some s =>
      have hcond : (ck.make_raw_chunk content start).end_offset < content.length ∧
          start + ck.step < content.length ∧ s = start + ck.step := by
        unfold TextChunker.loop_next at hnext
        simp only at hnext
        split at hnext
        · exact absurd hnext (by simp)
        · split at hnext
          · exact absurd hnext (by simp)
          · cases hnext
            constructor
            · omega
            · omega
      obtain ⟨hlt, hslt, rfl⟩ := hcond
      have hstep1 : 1 ≤ ck.step := ck.step_pos hcs
      have hwin : start + ck.chunk_size < content.length := by
        by_contra hh
        have := hs4 (by omega)
        omega
      have hlow := hs5 hwin
      obtain ⟨ih0, ih1, ih2, ih3⟩ :=
        ih (start + ck.step) hslt (by omega)
      set rest := ck.split_go content fuel (start + ck.step) with hrest
      have hne : rest ≠ [] := by
        intro hr
        rw [hr] at ih0
        simp at ih0
      obtain ⟨q, hq⟩ := List.exists_mem_of_ne_nil rest hne
      refine ⟨by simp [hs0], ?_, ?_, ?_⟩
      · rw [getLast?_cons_of_ne_nil _ hne]
        exact ih1
      · rw [List.chain'_cons']
        refine ⟨?_, ih2⟩
        intro b hb
        have hbstart : b.start_offset = start + ck.step := by
          cases hrh : rest.head? with
          | none => rw [hrh] at hb; cases hb
          | some c =>
            rw [hrh] at hb ih0
            have hbc : c = b := by simpa using hb
            subst hbc
            simpa using ih0
        refine ⟨by rw [hbstart, hs0], ?_, ?_⟩
        · have := ck.chunk_size_le_step_add_overlap
          omega
        · have := ck.step_le
          omega
      · intro p hp
        rcases List.mem_cons.mp hp with rfl | hp2
        · exact ⟨le_of_eq hs0.symm, by omega, by omega, hs2⟩
        · have := ih3 p hp2
          exact ⟨by omega, this.2.1, this.2.2.1, this.2.2.2⟩

/-- The C2 claim, stated as written, as a decidable check on the emitted
chunks of `chunk()`: ranges ordered by `chunk_index` cover the whole
content (first start 0, no uncovered gap between consecutive chunks, last
end equal to the content length) and consecutive overlaps are bounded by
the configured overlap. -/
def chunk_ranges_claim (ck : TextChunker) (doc : Document) : Bool :=
  let cs := ck.chunk doc
  decide (cs.head?.map (fun c => c.start_offset) = some 0) &&
  decide ((cs.getLast?).map (fun c => c.end_offset) = some doc.content.length) &&
  cs.all (fun c => decide (c.start_offset ≤ c.end_offset)) &&
  (cs.zip cs.tail).all (fun p =>
    decide (p.2.start_offset ≤ p.1.end_offset) &&
    decide (p.1.end_offset ≤ p.2.start_offset + ck.overlap))

/-- A 150-character document whose only break-point candidate inside the
first window is a space at index 84. -/
def gap_doc : Document := ⟨List.replicate 84 'a' ++ ' ' :: List.replicate 65 'a'⟩

/-- C2 counterexample: with a 100-character window and no overlap,
`chunk()` on `gap_doc` emits ranges `[0,85)` and `[100,150)` — break-point
adjustment cut the first window at the space, but the next window still
starts at offset 100, leaving `[85,100)` uncovered.  The claimed coverage
property is false. -/
theorem C2_counterexample :
    chunk_ranges_claim (TextChunker.new ⟨25, 0⟩) gap_doc = false := by decide

theorem enum_map_snd_comp {α β : Type} (l : List α) (g : α → β) :
    l.enum.map (fun p => g p.2) = l.map g := by
  apply List.ext_getElem
  · simp
  · intro i h1 h2
    simp

/-- C2 amended: for non-empty content and positive character chunk size,
the pre-filter chunks of `split_with_overlap` start at offset 0, advance by
exactly the step, overlap by at most the configured overlap, leave gaps of
at most `chunk_size/5`, and end exactly at the content length; the chunks
emitted by `chunk()` in the multi-chunk path are the meaningful subsequence
of these, which is why emitted coverage can have gaps
(`src/services/chunker.rs:33-142`). -/
theorem C2_chunk_ranges (ck : TextChunker) (doc : Document)
    (hcs : 1 ≤ ck.chunk_size) (hne : doc.content ≠ []) :
    ((ck.split_with_overlap doc.content).head?.map (fun p => p.start_offset) =
      some 0) ∧
    (((ck.split_with_overlap doc.content).getLast?).map (fun p => p.end_offset) =
      some doc.content.length) ∧
    List.Chain' (raw_chain ck) (ck.split_with_overlap doc.content) ∧
    (∀ p ∈ ck.split_with_overlap doc.content,
      p.start_offset < p.end_offset ∧
      p.end_offset ≤ p.start_offset + ck.chunk_size ∧
      p.end_offset ≤ doc.content.length) ∧
    (ck.chunk_size < utf8_len doc.content →
      (ck.chunk doc).map (fun c => (c.start_offset, c.end_offset)) =
        (ck.kept doc.content).map (fun rc => (rc.start_offset, rc.end_offset))) := by
  have hlen : 0 < doc.content.length := List.length_pos.mpr hne
  have hsw : ck.split_with_overlap doc.content =
      ck.split_go doc.content doc.content.length 0 := by
    unfold TextChunker.split_with_overlap
    rw [if_neg (by omega)]
  obtain ⟨h0, h1, h2, h3⟩ :=
    split_go_spec ck doc.content hcs doc.content.length 0 hlen (by omega)
  rw [hsw]
  refine ⟨h0, h1, h2, ?_, ?_⟩
  · intro p hp
    have := h3 p hp
    exact ⟨this.2.1, this.2.2.1, this.2.2.2⟩
  · intro hgt
    rw [TextChunker.chunk_of_large ck doc hne hgt]
    rw [List.map_map]
    have : (fun c => (c.start_offset, c.end_offset)) ∘ ck.reindex doc.content =
        fun p : Nat × RawChunk => (p.2.start_offset, p.2.end_offset) := by
      funext p
      rfl
    rw [this]
    exact enum_map_snd_comp (ck.kept doc.content)
      (fun rc => (rc.start_offset, rc.end_offset))

/-- C2 witness for the amended theorem, evaluated on `gap_doc` with the
100-character window. -/
theorem C2_chunk_ranges_witness :
    (1 ≤ (TextChunker.new ⟨25, 0⟩).chunk_size ∧ gap_doc.content ≠ []) ∧
    ((((TextChunker.new ⟨25, 0⟩).split_with_overlap gap_doc.content).head?.map
        (fun p => p.start_offset) = some 0) ∧
     ((((TextChunker.new ⟨25, 0⟩).split_with_overlap gap_doc.content).getLast?).map
        (fun p => p.end_offset) = some gap_doc.content.length) ∧
     List.Chain' (raw_chain (TextChunker.new ⟨25, 0⟩))
       ((TextChunker.new ⟨25, 0⟩).split_with_overlap gap_doc.content) ∧
     (∀ p ∈ (TextChunker.new ⟨25, 0⟩).split_with_overlap gap_doc.content,
       p.start_offset < p.end_offset ∧
       p.end_offset ≤ p.start_offset + (TextChunker.new ⟨25, 0⟩).chunk_size ∧
       p.end_offset ≤ gap_doc.content.length) ∧
     ((TextChunker.new ⟨25, 0⟩).chunk_size < utf8_len gap_doc.content →
       ((TextChunker.new ⟨25, 0⟩).chunk gap_doc).map
           (fun c => (c.start_offset, c.end_offset)) =
         ((TextChunker.new ⟨25, 0⟩).kept gap_doc.content).map
           (fun rc => (rc.start_offset, rc.end_offset)))) :=
  ⟨⟨by decide, by decide⟩,
    C2_chunk_ranges (TextChunker.new ⟨25, 0⟩) gap_doc (by decide) (by decide)⟩

/-! ### `src/error.rs`: C8 -/

/-- `DaemonError` (`src/error.rs:36-60`); the `IoError` payload is the
error's message. -/
inductive DaemonError
  | notRunning
  | alreadyRunning
  | connectionFailed (msg : String)
  | socketError (msg : String)
  | protocolError (msg : String)
  | spawnError (msg : String)
  | timeout
  | ioError (msg : String)
deriving DecidableEq, Repr

/-- `Retryable::is_retryable` for `DaemonError` (`src/error.rs:62-69`):
a `matches!` on `ConnectionFailed | Timeout | NotRunning`. -/
def DaemonError.is_retryable : DaemonError → Bool
  | .connectionFailed _ => true
  | .timeout => true
  | .notRunning => true
  | _ => false

/-- C8: a `DaemonError` is retryable iff it is `ConnectionFailed`,
`Timeout` or `NotRunning`; in particular every `ProtocolError` is not
retryable (`src/error.rs:62-69`). -/
theorem C8_retryable_classification :
    (∀ e : DaemonError, e.is_retryable = true ↔
      ((∃ s, e = .connectionFailed s) ∨ e = .timeout ∨ e = .notRunning)) ∧
    (∀ s, (DaemonError.protocolError s).is_retryable = false) := by
  constructor
  · intro e
    cases e <;> simp [DaemonError.is_retryable]
  · intro s
    rfl

/-! ### `src/server/protocol.rs` and `src/server/mod.rs`: C4, C5 -/

/-- `MetricsSummary` (`src/services/metrics.rs:72-76`); the `f32`
`error_rate` is idealized as an exact rational. -/
structure MetricsSummary where
  total_requests : Nat
  avg_latency_ms : Nat
  error_rate : ℚ
deriving DecidableEq, Repr

/-- `EmbedRequest` (`src/server/protocol.rs:14-18`). -/
structure EmbedRequest where
  texts : List String
  is_query : Bool
deriving DecidableEq, Repr

/-- `StatusResponse` (`src/server/protocol.rs:30-37`). -/
structure StatusResponse where
  running : Bool
  embedding_model : String
  idle_secs : Nat
  requests_served : Nat
  metrics : Option MetricsSummary
deriving DecidableEq, Repr

/-- `EmbedResponse` (`src/server/protocol.rs:39-42`); `f32` entries are
idealized as exact rationals. -/
structure EmbedResponse where
  embeddings : List (List ℚ)
deriving DecidableEq, Repr

/-- `ErrorResponse` (`src/server/protocol.rs:44-47`). -/
structure ErrorResponse where
  message : String
deriving DecidableEq, Repr

/-- `Request` (`src/server/protocol.rs:5-12`). -/
inductive Request
  | ping
  | shutdown
  | status
  | embed (req : EmbedRequest)
deriving DecidableEq, Repr

/-- `Response` (`src/server/protocol.rs:20-28`). -/
inductive Response
  | pong
  | shutdownAck
  | status (st : StatusResponse)
  | embed (resp : EmbedResponse)
  | error (err : ErrorResponse)
deriving DecidableEq, Repr

/-- A JSON value; numbers are idealized as exact rationals. -/
inductive Json
  | null
  | bool (b : Bool)
  | num (q : ℚ)
  | str (s : String)
  | arr (items : List Json)
  | obj (fields : List (String × Json))

/-- Modelled from the spec: message bodies are "UTF-8 serialized objects
tagged by a `type` discriminator" — this is serde_json's derived encoding
of the `#[serde(tag = "type", rename_all = "snake_case")]` enums of
`src/server/protocol.rs` (serde_json itself is an external crate, not part
of this repository).  Internally tagged serialization flattens a variant's
struct fields next to the tag. -/
def Request.toJson : Request → Json
  | .ping => .obj [("type", .str "ping")]
  | .shutdown => .obj [("type", .str "shutdown")]
  | .status => .obj [("type", .str "status")]
  | .embed req => .obj [("type", .str "embed"),
      ("texts", .arr (req.texts.map Json.str)),
      ("is_query", .bool req.is_query)]

/-- Modelled from the spec: the serde encoding of `MetricsSummary`. -/
def MetricsSummary.toJson (m : MetricsSummary) : Json :=
  .obj [("total_requests", .num m.total_requests),
        ("avg_latency_ms", .num m.avg_latency_ms),
        ("error_rate", .num m.error_rate)]

/-- Modelled from the spec: the serde encoding of `Response`
(`src/server/protocol.rs:20-47`), internally tagged by `type`. -/
def Response.toJson : Response → Json
  | .pong => .obj [("type", .str "pong")]
  | .shutdownAck => .obj [("type", .str "shutdown_ack")]
  | .status st => .obj [("type", .str "status"),
      ("running", .bool st.running),
      ("embedding_model", .str st.embedding_model),
      ("idle_secs", .num st.idle_secs),
      ("requests_served", .num st.requests_served),
      ("metrics", match st.metrics with
        | none => .null
        | some m => m.toJson)]
  | .embed resp => .obj [("type", .str "embed"),
      ("embeddings", .arr (resp.embeddings.map (fun v => .arr (v.map Json.num))))]
  | .error err => .obj [("type", .str "error"), ("message", .str err.message)]

/-- First field of the given name in a JSON object. -/
def Json.getField (j : Json) (name : String) : Option Json :=
  match j with
  | .obj fields => fields.lookup name
  | _ => none

/-- A JSON string. -/
def Json.asStr : Json → Option String
  | .str s => some s
  | _ => none

/-- A JSON boolean. -/
def Json.asBool : Json → Option Bool
  | .bool b => some b
  | _ => none

/-- A JSON number read back as an unsigned integer (serde rejects
non-integral or negative values for `u64` fields). -/
def Json.asNat : Json → Option Nat
  | .num q => if q.den = 1 ∧ 0 ≤ q.num then some q.num.toNat else none
  | _ => none

/-- A JSON number read back as a float (idealized as `ℚ`). -/
def Json.asRat : Json → Option ℚ
  | .num q => some q
  | _ => none

/-- Decode a JSON array of strings element by element. -/
def decodeStrList : List Json → Option (List String)
  | [] => some []
  | j :: rest =>
    match j.asStr, decodeStrList rest with
    | some s, some l => some (s :: l)
    | _, _ => none

/-- Decode a JSON array of numbers element by element. -/
def decodeRatList : List Json → Option (List ℚ)
  | [] => some []
  | j :: rest =>
    match j.asRat, decodeRatList rest with
    | some q, some l => some (q :: l)
    | _, _ => none

/-- Decode a JSON array of number arrays element by element. -/
def decodeEmbeddings : List Json → Option (List (List ℚ))
  | [] => some []
  | .arr v :: rest =>
    match decodeRatList v, decodeEmbeddings rest with
    | some q, some l => some (q :: l)
    | _, _ => none
  | _ :: _ => none

/-- Modelled from the spec: serde's derived decoding of `Request`,
dispatching on the `type` tag. -/
def Request.fromJson (j : Json) : Option Request :=
  match j.getField "type" with
  | some (.str "ping") => some .ping
  | some (.str "shutdown") => some .shutdown
  | some (.str "status") => some .status
  | some (.str "embed") =>
    match j.getField "texts", j.getField "is_query" with
    | some (.arr ts), some (.bool q) =>
      match decodeStrList ts with
      | some texts => some (.embed ⟨texts, q⟩)
      | none => none
    | _, _ => none
  | _ => none

/-- Modelled from the spec: serde's derived decoding of `MetricsSummary`. -/
def MetricsSummary.fromJson (j : Json) : Option MetricsSummary :=
  match j.getField "total_requests", j.getField "avg_latency_ms",
      j.getField "error_rate" with
  | some t, some a, some e =>
    match t.asNat, a.asNat, e.asRat with
    | some tn, some an, some er => some ⟨tn, an, er⟩
    | _, _, _ => none
  | _, _, _ => none

/-- Modelled from the spec: serde's derived decoding of `Response`,
dispatching on the `type` tag. -/
def Response.fromJson (j : Json) : Option Response :=
  match j.getField "type" with
  | some (.str "pong") => some .pong
  | some (.str "shutdown_ack") => some .shutdownAck
  | some (.str "status") =>
    match j.getField "running", j.getField "embedding_model",
        j.getField "idle_secs", j.getField "requests_served" with
    | some r, some m, some i, some s =>
      match r.asBool, m.asStr, i.asNat, s.asNat with
      | some rb, some ms, some ins, some sn =>
        match j.getField "metrics" with
        | none => some (.status ⟨rb, ms, ins, sn, none⟩)
        | some .null => some (.status ⟨rb, ms, ins, sn, none⟩)
        | some mj =>
          match MetricsSummary.fromJson mj with
          | some summary => some (.status ⟨rb, ms, ins, sn, some summary⟩)
          | none => none
      | _, _, _, _ => none
    | _, _, _, _ => none
  | some (.str "embed") =>
    match j.getField "embeddings" with
    | some (.arr es) =>
      match decodeEmbeddings es with
      | some embeddings => some (.embed ⟨embeddings⟩)
      | none => none
    | _ => none
  | some (.str "error") =>
    match j.getField "message" with
    | some (.str msg) => some (.error ⟨msg⟩)
    | _ => none
  | _ => none

/-- The 10 MiB length cap of the per-connection loop
(`src/server/mod.rs:139`). -/
def MAX_MESSAGE_SIZE : Nat := 10 * 1024 * 1024

/-- `u32::to_be_bytes` of `n as u32` (`src/server/protocol.rs:59`),
bytes as `Nat`. -/
def be_bytes (n : Nat) : List Nat :=
  [n / 16777216 % 256, n / 65536 % 256, n / 256 % 256, n % 256]

/-- `encode_message` (`src/server/protocol.rs:57-64`): 4-byte big-endian
length prefix of the serialized body, then the body.  The `as u32` cast in
the source truncates modulo `2^32`. -/
def encode_message (body : List Nat) : List Nat :=
  be_bytes (body.length % 4294967296) ++ body

/-- `decode_length` (`src/server/protocol.rs:66-68`): big-endian `u32`
from the 4-byte buffer. -/
def decode_length (buf : List Nat) : Nat :=
  match buf with
  | [b0, b1, b2, b3] => ((b0 * 256 + b1) * 256 + b2) * 256 + b3
  | _ => 0

/-- `DaemonServer::handle_request` (`src/server/mod.rs:175-213`).  The
shared daemon state read for `Status` is abstracted as the `status`
parameter, and the embedding model call as `embedFn`; metrics recording
has no observable effect on the response. -/
def handle_request (embedFn : List String → Bool → Except String (List (List ℚ)))
    (status : StatusResponse) : Request → Response
  | .ping => .pong
  | .shutdown => .shutdownAck
  | .status => .status status
  | .embed req =>
    match embedFn req.texts req.is_query with
    | .ok embeddings => .embed ⟨embeddings⟩
    | .error e => .error ⟨e⟩

/-- The `while` loop of `DaemonServer::handle_connection`
(`src/server/mod.rs:134-173`) over a byte stream, with `parse` standing
for `serde_json::from_slice::<Request>` and `dispatch` for
`handle_request`.  Returns the responses written to the peer.  The loop is
written with explicit fuel; each iteration consumes at least 4 bytes of
input, so a fuel of `input.length` is never exhausted. -/
def run_conn_go (parse : List Nat → Except String Request)
    (dispatch : Request → Response) : Nat → List Nat → List Response
  | 0, _ => []
  | fuel + 1, input =>
    if input.length < 4 then []
    else
      let len := decode_length (input.take 4)
      if MAX_MESSAGE_SIZE < len then []
      else
        let rest := input.drop 4
        if rest.length < len then []
        else
          match parse (rest.take len) with
          | .error e =>
            Response.error ⟨"invalid request: " ++ e⟩ ::
              run_conn_go parse dispatch fuel (rest.drop len)
          | .ok req =>
            let resp := dispatch req
            if resp = Response.shutdownAck then [resp]
            else resp :: run_conn_go parse dispatch fuel (rest.drop len)

/-- `DaemonServer::handle_connection` on a finite byte stream. -/
def run_conn (parse : List Nat → Except String Request)
    (dispatch : Request → Response) (input : List Nat) : List Response :=
  run_conn_go parse dispatch input.length input

/-- Enough fuel makes the connection loop fuel-independent. -/
theorem run_conn_go_stable (parse : List Nat → Except String Request)
    (dispatch : Request → Response) :
    ∀ fuel₁ fuel₂ input, input.length ≤ fuel₁ → input.length ≤ fuel₂ →
      run_conn_go parse dispatch fuel₁ input =
        run_conn_go parse dispatch fuel₂ input := by
  intro fuel₁
  induction fuel₁ with
  | zero =>
    intro fuel₂ input h1 h2
    have : input = [] := List.length_eq_zero.mp (by omega)
    subst this
    cases fuel₂ with
    | zero => rfl
    | succ f => rfl
  | succ f₁ ih =>
    intro fuel₂ input h1 h2
    cases fuel₂ with
    | zero =>
      have : input = [] := List.length_eq_zero.mp (by omega)
      subst this
      rfl
    | succ f₂ =>
      rw [run_conn_go, run_conn_go]
      by_cases hsmall : input.length < 4
      · rw [if_pos hsmall, if_pos hsmall]
      · rw [if_neg hsmall, if_neg hsmall]
        simp only
        by_cases hcap : MAX_MESSAGE_SIZE < decode_length (input.take 4)
        · rw [if_pos hcap, if_pos hcap]
        · rw [if_neg hcap, if_neg hcap]
          by_cases hbody : (input.drop 4).length < decode_length (input.take 4)
          · rw [if_pos hbody, if_pos hbody]
          · rw [if_neg hbody, if_neg hbody]
            have hrec : ((input.drop 4).drop (decode_length (input.take 4))).length ≤ f₁ ∧
                ((input.drop 4).drop (decode_length (input.take 4))).length ≤ f₂ := by
              simp only [List.length_drop]
              omega
            cases hp : parse ((input.drop 4).take (decode_length (input.take 4))) with
            | error e =>
              rw [ih f₂ _ hrec.1 hrec.2]
            | ok req => rw [ih f₂ _ hrec.1 hrec.2]

theorem decode_be_bytes (n : Nat) (h : n < 4294967296) :
    decode_length (be_bytes n) = n := by
  show ((n / 16777216 % 256 * 256 + n / 65536 % 256) * 256 + n / 256 % 256) * 256 +
      n % 256 = n
  omega

/-- One complete framed message at the front of the stream: the loop reads
its prefix and exactly its body, then continues on the remaining bytes. -/
theorem run_conn_step (parse : List Nat → Except String Request)
    (dispatch : Request → Response) (body rest : List Nat)
    (hlen : body.length ≤ MAX_MESSAGE_SIZE) :
    run_conn parse dispatch (encode_message body ++ rest) =
      (match parse body with
       | .error e =>
         Response.error ⟨"invalid request: " ++ e⟩ :: run_conn parse dispatch rest
       | .ok req =>
         if dispatch req = Response.shutdownAck then [dispatch req]
         else dispatch req :: run_conn parse dispatch rest) := by
  have hcap : body.length < 4294967296 := by
    unfold MAX_MESSAGE_SIZE at hlen
    omega
  have hmod : body.length % 4294967296 = body.length := Nat.mod_eq_of_lt hcap
  have hbe : be_bytes (body.length % 4294967296) = be_bytes body.length := by
    rw [hmod]
  have hbelen : (be_bytes body.length).length = 4 := rfl
  have hinput : encode_message body ++ rest = be_bytes body.length ++ (body ++ rest) := by
    unfold encode_message
    rw [hbe, List.append_assoc]
  rw [hinput]
  unfold run_conn
  have hlentot : (be_bytes body.length ++ (body ++ rest)).length =
      4 + body.length + rest.length := by
    simp [hbelen]
    omega
  obtain ⟨f, hf⟩ : ∃ f, (be_bytes body.length ++ (body ++ rest)).length = f + 1 :=
    ⟨3 + body.length + rest.length, by omega⟩
  rw [hf, run_conn_go]
  rw [if_neg (by omega)]
  have htake4 : (be_bytes body.length ++ (body ++ rest)).take 4 = be_bytes body.length := by
    rw [List.take_append_of_le_length (by omega)]
    simp [hbelen]
  have hdrop4 : (be_bytes body.length ++ (body ++ rest)).drop 4 = body ++ rest := by
    rw [List.drop_append_of_le_length (by omega)]
    simp [hbelen]
  rw [htake4, hdrop4, decode_be_bytes _ hcap]
  rw [if_neg (by omega)]
  rw [if_neg (by simp)]
  have htakebody : (body ++ rest).take body.length = body := by
    simp
  have hdropbody : (body ++ rest).drop body.length = rest := by
    simp
  rw [htakebody, hdropbody]
  have hstable : run_conn_go parse dispatch f rest =
      run_conn_go parse dispatch rest.length rest := by
    apply run_conn_go_stable
    · omega
    · omega
  cases hp : parse body with
  | error e => rw [hstable]
  | ok req => rw [hstable]

theorem decodeStrList_roundtrip (xs : List String) :
    decodeStrList (xs.map Json.str) = some xs := by
  induction xs with
  | nil => rfl
  | cons a l ih => simp [decodeStrList, Json.asStr, ih]

theorem decodeRatList_roundtrip (v : List ℚ) :
    decodeRatList (v.map Json.num) = some v := by
  induction v with
  | nil => rfl
  | cons a l ih => simp [decodeRatList, Json.asRat, ih]

theorem decodeEmbeddings_roundtrip (es : List (List ℚ)) :
    decodeEmbeddings (es.map (fun v => Json.arr (v.map Json.num))) = some es := by
  induction es with
  | nil => rfl
  | cons a l ih => simp [decodeEmbeddings, decodeRatList_roundtrip, ih]

theorem asNat_num_natCast (n : Nat) : Json.asNat (.num n) = some n := by
  simp [Json.asNat]

theorem metrics_roundtrip (m : MetricsSummary) :
    MetricsSummary.fromJson m.toJson = some m := by
  cases m with
  | mk t a e =>
    simp [MetricsSummary.toJson, MetricsSummary.fromJson, Json.getField,
      List.lookup, asNat_num_natCast, Json.asRat, Json.asNat]

theorem request_roundtrip (r : Request) : Request.fromJson r.toJson = some r := by
  cases r with
  | ping => rfl
  | shutdown => rfl
  | status => rfl
  | embed req =>
    cases req with
    | mk texts q =>
      simp [Request.toJson, Request.fromJson, Json.getField, List.lookup,
        decodeStrList_roundtrip]

theorem response_roundtrip (r : Response) : Response.fromJson r.toJson = some r := by
  cases r with
  | pong => rfl
  | shutdownAck => rfl
  | status st =>
    cases st with
    | mk rb ms ins sn metrics =>
      cases metrics with
      | none =>
        simp [Response.toJson, Response.fromJson, Json.getField, List.lookup,
          Json.asBool, Json.asStr, asNat_num_natCast, Json.asNat]
      | some m =>
        simp [Response.toJson, Response.fromJson, Json.getField, List.lookup,
          Json.asBool, Json.asStr, asNat_num_natCast, Json.asNat,
          metrics_roundtrip, MetricsSummary.toJson, MetricsSummary.fromJson,
          Json.asRat]
  | embed resp =>
    cases resp with
    | mk es =>
      simp [Response.toJson, Response.fromJson, Json.getField, List.lookup,
        decodeEmbeddings_roundtrip]
  | error err =>
    cases err with
    | mk msg => rfl

/-- C4: framing round-trip — the decoded length prefix equals the body's
byte length and the body is recovered exactly; serialization round-trip —
decoding the serialized form of any `Request` or `Response` reproduces the
value; and a length prefix above the 10 MiB cap makes the connection loop
stop with no response, whatever bytes follow (so no body is read)
(`src/server/protocol.rs:57-68`, `src/server/mod.rs:134-146`). -/
theorem C4_protocol_roundtrip :
    (∀ body : List Nat, body.length < 4294967296 →
      decode_length ((encode_message body).take 4) = body.length ∧
      (encode_message body).drop 4 = body) ∧
    (∀ r : Request, Request.fromJson r.toJson = some r) ∧
    (∀ r : Response, Response.fromJson r.toJson = some r) ∧
    (∀ (parse : List Nat → Except String Request)
      (dispatch : Request → Response) (b0 b1 b2 b3 : Nat) (rest : List Nat),
      MAX_MESSAGE_SIZE < decode_length [b0, b1, b2, b3] →
      run_conn parse dispatch ([b0, b1, b2, b3] ++ rest) = []) := by
  refine ⟨?_, request_roundtrip, response_roundtrip, ?_⟩
  · intro body hlt
    have hmod : body.length % 4294967296 = body.length := Nat.mod_eq_of_lt hlt
    unfold encode_message
    constructor
    · rw [List.take_append_of_le_length (by simp [be_bytes])]
      have : (be_bytes (body.length % 4294967296)).take 4 =
          be_bytes (body.length % 4294967296) := by
        simp [be_bytes]
      rw [this, decode_be_bytes _ (by omega), hmod]
    · rw [List.drop_append_of_le_length (by simp [be_bytes])]
      simp [be_bytes]
  · intro parse dispatch b0 b1 b2 b3 rest hcap
    unfold run_conn
    obtain ⟨f, hf⟩ : ∃ f, ([b0, b1, b2, b3] ++ rest).length = f + 1 :=
      ⟨3 + rest.length, by
        simp only [List.length_append, List.length_cons, List.length_nil]
        omega⟩
    rw [hf, run_conn_go]
    rw [if_neg (by simp)]
    have htake : ([b0, b1, b2, b3] ++ rest).take 4 = [b0, b1, b2, b3] := rfl
    rw [htake, if_pos hcap]

/-- C4 witness: framing at body `[1,2,3]`, serialization at `Ping`/`Pong`,
and the cap at prefix `[255,255,255,255]`. -/
theorem C4_protocol_roundtrip_witness :
    (([1, 2, 3] : List Nat).length < 4294967296 ∧
      decode_length ((encode_message [1, 2, 3]).take 4) = ([1, 2, 3] : List Nat).length ∧
      (encode_message [1, 2, 3]).drop 4 = [1, 2, 3]) ∧
    Request.fromJson (Request.ping.toJson) = some Request.ping ∧
    Response.fromJson (Response.pong.toJson) = some Response.pong ∧
    (MAX_MESSAGE_SIZE < decode_length [255, 255, 255, 255] ∧
      run_conn (fun _ => .error "x") (fun _ => .pong)
        ([255, 255, 255, 255] ++ [7]) = []) :=
  ⟨⟨by norm_num, C4_protocol_roundtrip.1 [1, 2, 3] (by norm_num)⟩,
    C4_protocol_roundtrip.2.1 Request.ping,
    C4_protocol_roundtrip.2.2.1 Response.pong,
    ⟨by decide,
      C4_protocol_roundtrip.2.2.2 (fun _ => .error "x") (fun _ => .pong)
        255 255 255 255 [7] (by decide)⟩⟩

/-- A concrete parser standing for `serde_json::from_slice::<Request>`:
body `[1]` is a `Ping`, body `[2]` is an `Embed` request, anything else is
a decode error. -/
def p1 : List Nat → Except String Request := fun bs =>
  if bs = [1] then .ok .ping
  else if bs = [2] then .ok (.embed ⟨["t"], false⟩)
  else .error "bad"

/-- An embedding model call that always fails. -/
def embed_fail : List String → Bool → Except String (List (List ℚ)) :=
  fun _ _ => .error "no model"

/-- A concrete daemon status. -/
def status0 : StatusResponse := ⟨true, "m", 0, 0, none⟩

/-- C5 counterexample: a body that fails to decode yields an `Error`
response and the loop then still serves the following `Ping` — the decode
failure is not fatal to the connection (`src/server/mod.rs:148-157`
responds and `continue`s). -/
theorem C5_counterexample :
    run_conn p1 (handle_request embed_fail status0)
        (encode_message [0] ++ encode_message [1]) =
      [Response.error ⟨"invalid request: bad"⟩, Response.pong] := by decide

/-- C5 amended: a request whose dispatch fails (an `Embed` whose model
call errors) yields an `Error` response and the connection stays open; a
body that fails to decode as a `Request` likewise yields an `Error`
response and the connection stays open; only framing failures (an
over-cap length prefix or a short read) end the loop
(`src/server/mod.rs:134-173`). -/
theorem C5_connection_loop (parse : List Nat → Except String Request)
    (body rest : List Nat) (hlen : body.length ≤ MAX_MESSAGE_SIZE) :
    (∀ (embedFn : List String → Bool → Except String (List (List ℚ)))
      (status : StatusResponse) (er : EmbedRequest) (e : String),
      parse body = .ok (.embed er) →
      embedFn er.texts er.is_query = .error e →
      run_conn parse (handle_request embedFn status) (encode_message body ++ rest) =
        Response.error ⟨e⟩ ::
          run_conn parse (handle_request embedFn status) rest) ∧
    (∀ (dispatch : Request → Response) (e : String),
      parse body = .error e →
      run_conn parse dispatch (encode_message body ++ rest) =
        Response.error ⟨"invalid request: " ++ e⟩ ::
          run_conn parse dispatch rest) := by
  constructor
  · intro embedFn status er e hparse hembed
    rw [run_conn_step _ _ _ _ hlen, hparse]
    have hdisp : handle_request embedFn status (.embed er) = Response.error ⟨e⟩ := by
      simp [handle_request, hembed]
    simp [hdisp]
  · intro dispatch e hparse
    rw [run_conn_step _ _ _ _ hlen, hparse]

/-- C5 witness for the amended theorem: a failing `Embed` dispatch and a
failing decode, each followed by a live connection. -/
theorem C5_connection_loop_witness :
    (([2] : List Nat).length ≤ MAX_MESSAGE_SIZE ∧
      p1 [2] = .ok (.embed ⟨["t"], false⟩) ∧
      embed_fail ["t"] false = .error "no model") ∧
    (run_conn p1 (handle_request embed_fail status0)
        (encode_message [2] ++ encode_message [1]) =
      Response.error ⟨"no model"⟩ ::
        run_conn p1 (handle_request embed_fail status0) (encode_message [1])) ∧
    (run_conn p1 (handle_request embed_fail status0)
        (encode_message [0] ++ encode_message [1]) =
      Response.error ⟨"invalid request: bad"⟩ ::
        run_conn p1 (handle_request embed_fail status0) (encode_message [1])) :=
  ⟨⟨by decide, rfl, rfl⟩,
    (C5_connection_loop p1 [2] (encode_message [1]) (by decide)).1
      embed_fail status0 ⟨["t"], false⟩ "no model" rfl rfl,
    (C5_connection_loop p1 [0] (encode_message [1]) (by decide)).2
      (handle_request embed_fail status0) "bad" rfl⟩

/-! ### `src/server/embedding.rs`: C6

`f32` arithmetic is idealized over `ℝ`. -/

/-- `v.iter().map(|x| x * x).sum()` (`src/server/embedding.rs:169`). -/
def sum_sq (v : List ℝ) : ℝ := (v.map (fun x => x * x)).sum

/-- The Euclidean norm computed by `normalize`
(`src/server/embedding.rs:169`). -/
noncomputable def l2_norm (v : List ℝ) : ℝ := Real.sqrt (sum_sq v)

/-- `normalize` (`src/server/embedding.rs:168-175`): divide by the norm
when it is positive, otherwise return the vector unchanged. -/
noncomputable def normalize (v : List ℝ) : List ℝ :=
  if 0 < l2_norm v then v.map (fun x => x / l2_norm v) else v

/-- The per-example assembly of `EmbeddingModel::embed`
(`src/server/embedding.rs:134-158`): the inference output is abstracted as
the list of per-example extracted vectors (rank-3 output pools the last
non-padding token, rank-2 is used per example), and each one is
normalized before being returned. -/
noncomputable def embed_post (extracted : List (List ℝ)) : List (List ℝ) :=
  extracted.map normalize

theorem sum_sq_nonneg (v : List ℝ) : 0 ≤ sum_sq v := by
  induction v with
  | nil => simp [sum_sq]
  | cons a l ih =>
    simp only [sum_sq, List.map_cons, List.sum_cons]
    have := mul_self_nonneg a
    have hl : 0 ≤ sum_sq l := ih
    simp only [sum_sq] at hl
    nlinarith

theorem sum_sq_map_div (v : List ℝ) (c : ℝ) :
    sum_sq (v.map (fun x => x / c)) = sum_sq v / (c * c) := by
  induction v with
  | nil => simp [sum_sq]
  | cons a l ih =>
    simp only [sum_sq, List.map_cons, List.sum_cons] at ih ⊢
    rw [ih, div_mul_div_comm, div_add_div_same]

/-- C6: every vector returned by the embedding post-processing is the
normalization of an extracted vector; a vector with positive norm is
scaled to L2 norm exactly 1 (exact over `ℝ`, "within floating-point
tolerance" in `f32`); a vector with zero norm passes through unchanged
(`src/server/embedding.rs:134-175`). -/
theorem C6_embedding_normalized (extracted : List (List ℝ)) :
    (∀ w ∈ embed_post extracted, ∃ v ∈ extracted, w = normalize v) ∧
    (∀ v : List ℝ, 0 < l2_norm v → l2_norm (normalize v) = 1) ∧
    (∀ v : List ℝ, l2_norm v = 0 → normalize v = v) := by
  refine ⟨?_, ?_, ?_⟩
  · intro w hw
    obtain ⟨v, hv, rfl⟩ := List.mem_map.mp hw
    exact ⟨v, hv, rfl⟩
  · intro v hpos
    have hS : 0 < sum_sq v := by
      by_contra hS
      have h0 : sum_sq v = 0 := le_antisymm (by linarith [sum_sq_nonneg v]) (sum_sq_nonneg v)
      rw [l2_norm, h0, Real.sqrt_zero] at hpos
      exact lt_irrefl 0 hpos
    unfold normalize
    rw [if_pos hpos]
    unfold l2_norm
    rw [sum_sq_map_div, Real.mul_self_sqrt (le_of_lt hS),
      div_self (ne_of_gt hS), Real.sqrt_one]
  · intro v hzero
    unfold normalize
    rw [if_neg (by rw [hzero]; exact lt_irrefl 0)]

/-- C6 witness: the vector `[3, 4]` has positive norm and normalizes to
norm 1; the all-zero vector has zero norm and passes through. -/
theorem C6_embedding_normalized_witness :
    (0 < l2_norm [(3 : ℝ), 4] ∧ l2_norm (normalize [(3 : ℝ), 4]) = 1) ∧
    (l2_norm [(0 : ℝ), 0] = 0 ∧ normalize [(0 : ℝ), 0] = [(0 : ℝ), 0]) := by
  have h34 : 0 < l2_norm [(3 : ℝ), 4] := by
    unfold l2_norm
    rw [Real.sqrt_pos]
    norm_num [sum_sq]
  have h00 : l2_norm [(0 : ℝ), 0] = 0 := by
    unfold l2_norm
    norm_num [sum_sq]
  exact ⟨⟨h34, (C6_embedding_normalized []).2.1 [(3 : ℝ), 4] h34⟩,
    ⟨h00, (C6_embedding_normalized []).2.2 [(0 : ℝ), 0] h00⟩⟩

/-! ### `src/services/vector_store/`: C1, C9 -/

/-- `Tag` (`src/models/tag.rs:14-19`). -/
structure Tag where
  key : String
  value : String
deriving DecidableEq, Repr

/-- `Tag::to_payload_string` (`src/models/tag.rs:85-87`). -/
def Tag.to_payload_string (t : Tag) : String := t.key ++ ":" ++ t.value

/-- `SourceType` (`src/models/source.rs:11-23`). -/
inductive SourceType
  | Local
  | Jira
  | Confluence
  | Figma
  | Other (s : String)
deriving DecidableEq, Repr

/-- `Display for SourceType` (`src/models/source.rs:38-48`). -/
def SourceType.display : SourceType → String
  | .Local => "local"
  | .Jira => "jira"
  | .Confluence => "confluence"
  | .Figma => "figma"
  | .Other s => s

/-- Modelled from the spec: one stored chunk as the backends' search
queries see it — its id, payload tag strings, payload source-type string,
and the similarity score of its stored vector against the query vector
(the storage engines themselves are external services).  For pgvector the
`<=>` operator yields the cosine distance `1 − score`. -/
structure StoredPoint where
  id : String
  tags : List String
  source_type : String
  score : ℚ
deriving DecidableEq, Repr

/-- A pgvector row with its cosine distance to the query
(`embedding <=> $1`). -/
structure PgRow where
  id : String
  tags : List String
  source_type : String
  distance : ℚ
deriving DecidableEq, Repr

/-- The common shape of a returned search hit (`SearchResult` fields the
claims are about: payload plus similarity score). -/
structure SearchRow where
  id : String
  tags : List String
  source_type : String
  score : ℚ
deriving DecidableEq, Repr

/-- A leaf Qdrant condition: `Condition::matches(field, value)`. -/
inductive QLeaf
  | matches (field : String) (value : String)
deriving DecidableEq, Repr

/-- A Qdrant filter condition as built by `build_search_filter`: a leaf
`matches`, or one `should` group of leaves.  The backend never nests
deeper than this one level (`src/services/vector_store/qdrant.rs:48-68`),
so the model captures exactly the constructed fragment of Qdrant's
condition type. -/
inductive QCondition
  | matches (field : String) (value : String)
  | should (conditions : List QLeaf)
deriving DecidableEq, Repr

/-- Modelled from the spec: Qdrant's `matches` on the `tags` list payload
is membership, on the `source_type` string payload equality. -/
def QLeaf.eval (p : StoredPoint) : QLeaf → Bool
  | .matches field value =>
    if field = "tags" then p.tags.contains value
    else if field = "source_type" then decide (p.source_type = value)
    else false

/-- Modelled from the spec: Qdrant's evaluation of a condition — a
`should` group requires at least one of its members to hold. -/
def QCondition.eval (p : StoredPoint) : QCondition → Bool
  | .matches field value => QLeaf.eval p (.matches field value)
  | .should conditions => conditions.any (QLeaf.eval p)

/-- A Qdrant filter: the conjunction of its `must` conditions. -/
structure QFilter where
  must : List QCondition
deriving Repr

/-- Modelled from the spec: Qdrant evaluates a filter by requiring every
`must` condition. -/
def QFilter.eval (f : QFilter) (p : StoredPoint) : Bool :=
  f.must.all (QCondition.eval p)

/-- `QdrantBackend::build_search_filter`
(`src/services/vector_store/qdrant.rs:48-68`): one `must` condition per
tag, plus one nested `should` group over the source types when that list
is non-empty; `None` when no condition was added. -/
def build_search_filter (tags : List Tag) (source_types : List SourceType) :
    Option QFilter :=
  let must_conditions := tags.map
    (fun t => QCondition.matches "tags" t.to_payload_string)
  let must_conditions :=
    if source_types.isEmpty then must_conditions
    else must_conditions ++
      [QCondition.should (source_types.map
        (fun st => QLeaf.matches "source_type" st.display))]
  if must_conditions.isEmpty then none else some ⟨must_conditions⟩

/-- Descending-score order on stored points (higher similarity first). -/
def score_ge (a b : StoredPoint) : Prop := b.score ≤ a.score

instance : DecidableRel score_ge := fun a b =>
  inferInstanceAs (Decidable (b.score ≤ a.score))

instance : IsTotal StoredPoint score_ge := ⟨fun a b => le_total b.score a.score⟩

instance : IsTrans StoredPoint score_ge :=
  ⟨fun _ _ _ h1 h2 => le_trans h2 h1⟩

/-- Ascending-distance order on pgvector rows (`ORDER BY embedding <=> $1`). -/
def dist_le (a b : PgRow) : Prop := a.distance ≤ b.distance

instance : DecidableRel dist_le := fun a b =>
  inferInstanceAs (Decidable (a.distance ≤ b.distance))

instance : IsTotal PgRow dist_le := ⟨fun a b => le_total a.distance b.distance⟩

instance : IsTrans PgRow dist_le := ⟨fun _ _ _ h1 h2 => le_trans h1 h2⟩

/-- The predicate a stored point must satisfy to be returned by the
modelled Qdrant search: the built filter (when any) and the score
threshold (when given). -/
def qdrant_pred (tags : List Tag) (source_types : List SourceType)
    (min_score : Option ℚ) (p : StoredPoint) : Bool :=
  (match build_search_filter tags source_types with
   | none => true
   | some f => f.eval p) &&
  (match min_score with
   | none => true
   | some s => decide (s ≤ p.score))

/-- `QdrantBackend::search` (`src/services/vector_store/qdrant.rs:168-311`)
against a modelled corpus.  Modelled from the spec: Qdrant returns the top
`limit` points passing the filter and the score threshold, ordered by
descending similarity. -/
def qdrant_search (corpus : List StoredPoint) (limit : Nat) (tags : List Tag)
    (source_types : List SourceType) (min_score : Option ℚ) : List SearchRow :=
  let eligible := corpus.filter (qdrant_pred tags source_types min_score)
  ((List.insertionSort score_ge eligible).take limit).map
    (fun p => ⟨p.id, p.tags, p.source_type, p.score⟩)

/-- The `WHERE` clause built by `PgVectorBackend::search`
(`src/services/vector_store/pgvector.rs:262-290`): one `$i = ANY(tags)`
conjunct per tag, `source_type IN (...)` when the list is non-empty, and
`(1 - (embedding <=> $1)) >= min_score` when given. -/
def pg_where (tags : List Tag) (source_types : List SourceType)
    (min_score : Option ℚ) (r : PgRow) : Bool :=
  tags.all (fun t => r.tags.contains t.to_payload_string) &&
  (source_types.isEmpty ||
    source_types.any (fun st => decide (r.source_type = st.display))) &&
  (match min_score with
   | none => true
   | some s => decide (s ≤ 1 - r.distance))

/-- `PgVectorBackend::search` (`src/services/vector_store/pgvector.rs:252-374`)
against a modelled table.  Modelled from the spec: the database returns
the rows passing the `WHERE` clause ordered by `embedding <=> $1`
ascending, limited to `limit`; the backend reports `1 − distance` as the
score. -/
def pg_search (rows : List PgRow) (limit : Nat) (tags : List Tag)
    (source_types : List SourceType) (min_score : Option ℚ) : List SearchRow :=
  let eligible := rows.filter (pg_where tags source_types min_score)
  ((List.insertionSort dist_le eligible).take limit).map
    (fun r => ⟨r.id, r.tags, r.source_type, 1 - r.distance⟩)

theorem all_eval_tags (p : StoredPoint) (l : List Tag) :
    (l.map (fun t => QCondition.matches "tags" t.to_payload_string)).all
        (QCondition.eval p) =
      l.all (fun t => decide (t.to_payload_string ∈ p.tags)) := by
  induction l with
  | nil => rfl
  | cons t ts ih => simp [QCondition.eval, QLeaf.eval, ih]

theorem any_eval_source_types (p : StoredPoint) (l : List SourceType) :
    (l.map (fun st => QLeaf.matches "source_type" st.display)).any
        (QLeaf.eval p) =
      l.any (fun st => decide (p.source_type = st.display)) := by
  induction l with
  | nil => rfl
  | cons st sts ih => simp [QLeaf.eval, ih]

/-- The built filter evaluates exactly to: all requested tags are present
and, when the source-type list is non-empty, one of them matches. -/
theorem qdrant_pred_eval (tags : List Tag) (sts : List SourceType)
    (ms : Option ℚ) (p : StoredPoint) :
    qdrant_pred tags sts ms p =
      (tags.all (fun t => p.tags.contains t.to_payload_string) &&
       (sts.isEmpty || sts.any (fun st => decide (p.source_type = st.display))) &&
       (match ms with
        | none => true
        | some s => decide (s ≤ p.score))) := by
  unfold qdrant_pred
  congr 1
  unfold build_search_filter
  by_cases hsts : sts.isEmpty
  · have hstsnil : sts = [] := List.isEmpty_iff.mp hsts
    subst hstsnil
    simp only [List.isEmpty_nil, if_true]
    cases tags with
    | nil => simp
    | cons t ts =>
      simp only [List.isEmpty_cons, List.map_cons, if_neg (by simp : ¬ (false = true))]
      simp [QFilter.eval, QCondition.eval, QLeaf.eval, ← all_eval_tags p ts]
  · simp only [if_neg hsts]
    have happ : ¬ ((tags.map fun t =>
        QCondition.matches "tags" t.to_payload_string) ++
        [QCondition.should (sts.map
          (fun st => QLeaf.matches "source_type" st.display))]).isEmpty := by
      simp
    rw [if_neg happ]
    have hfalse : sts.isEmpty = false := by
      simpa using hsts
    simp only [hfalse, Bool.false_or]
    simp [QFilter.eval, QCondition.eval,
      ← all_eval_tags p tags, ← any_eval_source_types p sts]

/-- Membership characterization of the modelled Qdrant search results. -/
theorem qdrant_search_mem {corpus : List StoredPoint} {limit : Nat}
    {tags : List Tag} {sts : List SourceType} {ms : Option ℚ} {r : SearchRow}
    (hr : r ∈ qdrant_search corpus limit tags sts ms) :
    ∃ p ∈ corpus, r = ⟨p.id, p.tags, p.source_type, p.score⟩ ∧
      (∀ t ∈ tags, p.tags.contains t.to_payload_string = true) ∧
      (sts ≠ [] → ∃ st ∈ sts, p.source_type = st.display) ∧
      (∀ s, ms = some s → s ≤ p.score) := by
  unfold qdrant_search at hr
  obtain ⟨p, hp, rfl⟩ := List.mem_map.mp hr
  have hp2 := List.mem_of_mem_take hp
  rw [List.mem_insertionSort] at hp2
  obtain ⟨hmem, hpred⟩ := List.mem_filter.mp hp2
  rw [qdrant_pred_eval] at hpred
  simp only [Bool.and_eq_true, Bool.or_eq_true, List.all_eq_true,
    List.any_eq_true] at hpred
  obtain ⟨⟨htags, hsts⟩, hms⟩ := hpred
  refine ⟨p, hmem, rfl, htags, ?_, ?_⟩
  · intro hne
    rcases hsts with hempty | ⟨st, hst, heq⟩
    · exact absurd (List.isEmpty_iff.mp hempty) hne
    · exact ⟨st, hst, of_decide_eq_true heq⟩
  · intro s hs
    subst hs
    simpa using hms

/-- Membership characterization of the modelled pgvector search results. -/
theorem pg_search_mem {rows : List PgRow} {limit : Nat} {tags : List Tag}
    {sts : List SourceType} {ms : Option ℚ} {r : SearchRow}
    (hr : r ∈ pg_search rows limit tags sts ms) :
    ∃ p ∈ rows, r = ⟨p.id, p.tags, p.source_type, 1 - p.distance⟩ ∧
      pg_where tags sts ms p = true := by
  unfold pg_search at hr
  obtain ⟨p, hp, rfl⟩ := List.mem_map.mp hr
  have hp2 := List.mem_of_mem_take hp
  rw [List.mem_insertionSort] at hp2
  obtain ⟨hmem, hpred⟩ := List.mem_filter.mp hp2
  exact ⟨p, hmem, rfl, hpred⟩

theorem qdrant_search_sorted (corpus : List StoredPoint) (limit : Nat)
    (tags : List Tag) (sts : List SourceType) (ms : Option ℚ) :
    (qdrant_search corpus limit tags sts ms).Pairwise
      (fun a b => b.score ≤ a.score) := by
  unfold qdrant_search
  rw [List.pairwise_map]
  apply List.Pairwise.sublist (List.take_sublist _ _)
  exact List.sorted_insertionSort score_ge
    (corpus.filter (qdrant_pred tags sts ms))

theorem pg_search_sorted (rows : List PgRow) (limit : Nat)
    (tags : List Tag) (sts : List SourceType) (ms : Option ℚ) :
    (pg_search rows limit tags sts ms).Pairwise
      (fun a b => b.score ≤ a.score) := by
  unfold pg_search
  rw [List.pairwise_map]
  apply List.Pairwise.sublist (List.take_sublist _ _)
  have hs := List.sorted_insertionSort dist_le
    (rows.filter (pg_where tags sts ms))
  exact hs.imp (fun h => by
    unfold dist_le at h
    simp only
    linarith)

/-- C1: for both backends, the modelled search returns at most `limit`
results ordered by descending similarity; every result carries all the
given tags (AND), matches one of the given source types when that list is
non-empty (OR), and meets `min_score` when given; with no filters at all,
the result is exactly the top `limit` of the whole corpus
(`src/services/vector_store/qdrant.rs:48-68,168-193`,
`src/services/vector_store/pgvector.rs:252-326`). -/
theorem C1_search_filter_semantics (corpus : List StoredPoint)
    (rows : List PgRow) (limit : Nat) (tags : List Tag)
    (sts : List SourceType) (ms : Option ℚ) :
    ((qdrant_search corpus limit tags sts ms).length ≤ limit ∧
     (pg_search rows limit tags sts ms).length ≤ limit) ∧
    ((qdrant_search corpus limit tags sts ms).Pairwise
        (fun a b => b.score ≤ a.score) ∧
     (pg_search rows limit tags sts ms).Pairwise
        (fun a b => b.score ≤ a.score)) ∧
    (∀ r ∈ qdrant_search corpus limit tags sts ms,
      (∀ t ∈ tags, t.to_payload_string ∈ r.tags) ∧
      (sts ≠ [] → ∃ st ∈ sts, r.source_type = st.display) ∧
      (∀ s, ms = some s → s ≤ r.score)) ∧
    (∀ r ∈ pg_search rows limit tags sts ms,
      (∀ t ∈ tags, t.to_payload_string ∈ r.tags) ∧
      (sts ≠ [] → ∃ st ∈ sts, r.source_type = st.display) ∧
      (∀ s, ms = some s → s ≤ r.score)) ∧
    (tags = [] → sts = [] → ms = none →
      qdrant_search corpus limit tags sts ms =
        ((List.insertionSort score_ge corpus).take limit).map
          (fun p => ⟨p.id, p.tags, p.source_type, p.score⟩) ∧
      pg_search rows limit tags sts ms =
        ((List.insertionSort dist_le rows).take limit).map
          (fun r => ⟨r.id, r.tags, r.source_type, 1 - r.distance⟩)) := by
  refine ⟨⟨?_, ?_⟩, ⟨qdrant_search_sorted corpus limit tags sts ms,
    pg_search_sorted rows limit tags sts ms⟩, ?_, ?_, ?_⟩
  · unfold qdrant_search
    simp only [List.length_map]
    exact List.length_take_le _ _
  · unfold pg_search
    simp only [List.length_map]
    exact List.length_take_le _ _
  · intro r hr
    obtain ⟨p, _, rfl, htags, hsts, hms⟩ := qdrant_search_mem hr
    refine ⟨?_, hsts, hms⟩
    intro t ht
    have := htags t ht
    simpa using this
  · intro r hr
    obtain ⟨p, _, rfl, hwhere⟩ := pg_search_mem hr
    simp only [pg_where, Bool.and_eq_true, Bool.or_eq_true, List.all_eq_true,
      List.any_eq_true] at hwhere
    obtain ⟨⟨htags, hsts⟩, hms⟩ := hwhere
    refine ⟨?_, ?_, ?_⟩
    · intro t ht
      have := htags t ht
      simpa using this
    · intro hne
      rcases hsts with hempty | ⟨st, hst, heq⟩
      · exact absurd (List.isEmpty_iff.mp hempty) hne
      · exact ⟨st, hst, of_decide_eq_true heq⟩
    · intro s hs
      subst hs
      simpa using hms
  · intro htags hsts hms
    subst htags
    subst hsts
    subst hms
    constructor
    · unfold qdrant_search
      have : corpus.filter (qdrant_pred [] [] none) = corpus := by
        apply List.filter_eq_self.mpr
        intro p _
        rfl
      rw [this]
    · unfold pg_search
      have : rows.filter (pg_where [] [] none) = rows := by
        apply List.filter_eq_self.mpr
        intro p _
        rfl
      rw [this]

/-- A three-point corpus for exercising the search filters. -/
def corpus0 : List StoredPoint :=
  [⟨"a", ["k:v", "k2:v2"], "local", (9 : ℚ)⟩,
   ⟨"b", ["k:v"], "jira", (8 : ℚ)⟩,
   ⟨"c", ["k:v", "k2:v2"], "jira", (1 : ℚ)⟩]

/-- Two tags requested conjunctively. -/
def tags0 : List Tag := [⟨"k", "v"⟩, ⟨"k2", "v2"⟩]

/-- Two source types requested disjunctively. -/
def sts0 : List SourceType := [.Local, .Jira]

/-- C1 witness: on `corpus0` with two tags, two source types and
`min_score = 5`, the point `a` is returned and the theorem yields its
tag, source-type and score guarantees at that point. -/
theorem C1_search_filter_semantics_witness :
    ((⟨"a", ["k:v", "k2:v2"], "local", (9 : ℚ)⟩ : SearchRow) ∈
        qdrant_search corpus0 2 tags0 sts0 (some (5 : ℚ)) ∧
      sts0 ≠ []) ∧
    ((∀ t ∈ tags0, t.to_payload_string ∈ ["k:v", "k2:v2"]) ∧
      (∃ st ∈ sts0, "local" = st.display) ∧
      (5 : ℚ) ≤ (9 : ℚ)) := by
  have heq : qdrant_search corpus0 2 tags0 sts0 (some (5 : ℚ)) =
      [⟨"a", ["k:v", "k2:v2"], "local", (9 : ℚ)⟩] := by decide
  have hmem : (⟨"a", ["k:v", "k2:v2"], "local", (9 : ℚ)⟩ : SearchRow) ∈
      qdrant_search corpus0 2 tags0 sts0 (some (5 : ℚ)) := by
    rw [heq]
    exact List.mem_singleton.mpr rfl
  have h := (C1_search_filter_semantics corpus0 [] 2 tags0 sts0
      (some (5 : ℚ))).2.2.1 _ hmem
  exact ⟨⟨hmem, by decide⟩, h.1, h.2.1 (by decide), h.2.2 _ rfl⟩

/-- Modelled from the spec: the tag aggregation both backends compute —
the occurrence count of every distinct stored tag string across all
stored chunks.  For pgvector this is `unnest(tags)` + `GROUP BY`
(`src/services/vector_store/pgvector.rs:461-487`); for Qdrant a full
paginated scroll accumulating counts in a `HashMap`
(`src/services/vector_store/qdrant.rs:391-444`). -/
def tag_counts (tag_lists : List (List String)) : List (String × Nat) :=
  tag_lists.flatten.dedup.map (fun t => (t, tag_lists.flatten.count t))

/-- The output order of `list_all_tags`: count descending, then tag
ascending — SQL `ORDER BY count DESC, tag ASC`
(`src/services/vector_store/pgvector.rs:467`) and the Rust comparator
`b.1.cmp(&a.1).then_with(|| a.0.cmp(&b.0))`
(`src/services/vector_store/qdrant.rs:442`). -/
def tag_order (a b : String × Nat) : Prop :=
  b.2 < a.2 ∨ (a.2 = b.2 ∧ a.1 ≤ b.1)

instance : DecidableRel tag_order := fun _ _ =>
  inferInstanceAs (Decidable (_ ∨ _))

instance : IsTotal (String × Nat) tag_order := by
  constructor
  intro a b
  rcases Nat.lt_trichotomy a.2 b.2 with h | h | h
  · exact Or.inr (Or.inl h)
  · rcases le_total a.1 b.1 with hs | hs
    · exact Or.inl (Or.inr ⟨h.symm ▸ rfl, hs⟩)
    · exact Or.inr (Or.inr ⟨h.symm, hs⟩)
  · exact Or.inl (Or.inl h)

instance : IsTrans (String × Nat) tag_order := by
  constructor
  intro a b c hab hbc
  rcases hab with h1 | ⟨h1, hs1⟩ <;> rcases hbc with h2 | ⟨h2, hs2⟩
  · exact Or.inl (by omega)
  · exact Or.inl (by omega)
  · exact Or.inl (by omega)
  · exact Or.inr ⟨by omega, le_trans hs1 hs2⟩

/-- `list_all_tags` for both backends, against a modelled store whose
chunks carry the given tag lists. -/
def list_all_tags (tag_lists : List (List String)) : List (String × Nat) :=
  List.insertionSort tag_order (tag_counts tag_lists)

example :
    list_all_tags [["b:1", "a:1"], ["a:1"], []] = [("a:1", 2), ("b:1", 1)] := by
  decide

/-- C9: `list_all_tags` returns every distinct stored tag string exactly
once, paired with its occurrence count across all stored chunks, sorted by
count descending and, among equal counts, by tag ascending
(`src/services/vector_store/pgvector.rs:461-487`,
`src/services/vector_store/qdrant.rs:391-444`). -/
theorem C9_list_all_tags (tag_lists : List (List String)) :
    ((list_all_tags tag_lists).map Prod.fst).Nodup ∧
    (∀ t : String, t ∈ tag_lists.flatten ↔
      t ∈ (list_all_tags tag_lists).map Prod.fst) ∧
    (∀ p ∈ list_all_tags tag_lists, p.2 = tag_lists.flatten.count p.1) ∧
    (list_all_tags tag_lists).Pairwise tag_order := by
  have hperm : List.Perm (list_all_tags tag_lists) (tag_counts tag_lists) :=
    List.perm_insertionSort tag_order (tag_counts tag_lists)
  have hmapfst : (tag_counts tag_lists).map Prod.fst = tag_lists.flatten.dedup := by
    unfold tag_counts
    rw [List.map_map]
    have hcomp : (Prod.fst ∘ fun t => (t, tag_lists.flatten.count t)) =
        (id : String → String) := rfl
    rw [hcomp, List.map_id]
  refine ⟨?_, ?_, ?_, ?_⟩
  · rw [(hperm.map Prod.fst).nodup_iff, hmapfst]
    exact List.nodup_dedup _
  · intro t
    rw [(hperm.map Prod.fst).mem_iff, hmapfst, List.mem_dedup]
  · intro p hp
    have hp2 : p ∈ tag_counts tag_lists := (List.mem_insertionSort _).mp hp
    unfold tag_counts at hp2
    obtain ⟨t, _, rfl⟩ := List.mem_map.mp hp2
    rfl
  · exact List.sorted_insertionSort tag_order (tag_counts tag_lists)

end SemanticSearch
